import Mathlib

/-!
# Verification of the tenant-attribution-and-isolation engine

Shallow embedding of the multi-tenant payment platform's core:
the isolation-enforcing data gateway (`TenantAwareRepository`),
the tenant resolver (`TenantResolverService`), the sliding-window
rate limiter (`RateLimiterService`), and the usage meter
(`UsageTrackerService`), together with proofs of the spec's claims.

JavaScript strings are modelled as `String` (repository layer) or
`List Char` (resolver layer, where character-level splitting matters);
JavaScript numbers appearing as timestamps are `Int`/`Nat`, and the
usage meter's arithmetic is modelled over `ℚ` with an explicit
`Infinity` marker mirroring the TS `number` values used by the tier
table.
-/

namespace Gateway

/-- A JavaScript value as it can appear for the `tenantId` key of a
caller-supplied mongoose filter or update payload: a string (ObjectId
rendered via `toString()`), `null`, or `undefined`. -/
inductive JsVal where
  | vstr (s : String)
  | vnull
  | vundef
deriving DecidableEq, Repr

/-- `v?.toString()` — optional chaining: `null`/`undefined` yield
`undefined` (modelled `none`); a string yields itself. -/
def jsToString : JsVal → Option String
  | .vstr s => some s
  | .vnull => none
  | .vundef => none

/-- JavaScript truthiness of the result of `v?.toString()`:
`undefined` and the empty string are falsy. -/
def jsTruthyStr : Option String → Bool
  | none => false
  | some s => s ≠ ""

/-- JavaScript truthiness of an optional `tenantId` slot in an update
payload (`update.$set?.tenantId` / `update.tenantId`): absent,
`null`, `undefined` and `""` are falsy. -/
def jsTruthyVal : Option JsVal → Bool
  | none => false
  | some (.vstr s) => s ≠ ""
  | some .vnull => false
  | some .vundef => false

/-- A caller-supplied filter, restricted to the keys the repository
inspects or writes: `_id`, `tenantId` and `deletedAt`.  `none` models
the key being absent from the filter object. -/
structure Filter where
  id : Option String := none
  tenantId : Option JsVal := none
  deletedAt : Option JsVal := none
deriving DecidableEq, Repr

/-- `TenantAwareRepository.injectTenantFilter`: block filters whose
`tenantId` has a truthy string form differing from the context tenant
(`ForbiddenException`, modelled `Except.error ()`), then overwrite
`tenantId` with the context tenant and add `deletedAt: null` unless
`includeDeleted`. -/
def injectTenantFilter (filter : Filter) (includeDeleted : Bool)
    (ctx : String) : Except Unit Filter :=
  match filter.tenantId with
  | some v =>
    let filterTenantId := jsToString v
    if jsTruthyStr filterTenantId ∧ filterTenantId ≠ some ctx then
      Except.error ()
    else
      Except.ok { filter with
        tenantId := some (.vstr ctx)
        deletedAt := if includeDeleted then filter.deletedAt else some .vnull }
  | none =>
    Except.ok { filter with
      tenantId := some (.vstr ctx)
      deletedAt := if includeDeleted then filter.deletedAt else some .vnull }

/-- A stored tenant-owned document (the fields the claims are about:
`_id`, `tenantId`, soft-delete stamp, deleting actor, and one opaque
payload field standing for the entity's own data). -/
structure Doc where
  id : String
  tenantId : String
  deletedAt : Option Nat := none
  deletedBy : Option String := none
  data : Nat := 0
deriving DecidableEq, Repr

/-- Does a document match an (injected) filter?  `some .vnull` on
`deletedAt` matches only live documents; a string `tenantId` matches
by equality; an absent key is no constraint. -/
def filterMatches (f : Filter) (d : Doc) : Bool :=
  (match f.id with
   | none => true
   | some i => d.id = i) &&
  (match f.tenantId with
   | none => true
   | some (.vstr s) => d.tenantId = s
   | some _ => false) &&
  (match f.deletedAt with
   | none => true
   | some .vnull => d.deletedAt = none
   | some _ => false)

/-- The `$set` portion of an update payload (restricted to the keys
the repository's own operations write plus `tenantId`). -/
structure SetOps where
  tenantId : Option JsVal := none
  deletedAt : Option Nat := none
  deletedBy : Option String := none
  data : Option Nat := none
deriving DecidableEq, Repr

/-- An update payload: a `$set` object plus a possible top-level
`tenantId` key (mongoose treats plain top-level fields as `$set`). -/
structure Update where
  set : SetOps := {}
  topTenantId : Option JsVal := none
deriving DecidableEq, Repr

/-- Apply an update to one document (mongoose/MongoDB `$set`
semantics on the modelled fields). -/
def applyUpdate (u : Update) (d : Doc) : Doc :=
  { d with
    tenantId :=
      match u.set.tenantId with
      | some (.vstr s) => s
      | _ =>
        match u.topTenantId with
        | some (.vstr s) => s
        | _ => d.tenantId
    deletedAt :=
      match u.set.deletedAt with
      | some t => some t
      | none => d.deletedAt
    deletedBy :=
      match u.set.deletedBy with
      | some b => some b
      | none => d.deletedBy
    data :=
      match u.set.data with
      | some n => n
      | none => d.data }

/-- `updateOne`'s guard: `if (update.$set?.tenantId || update.tenantId)
{ delete update.$set?.tenantId; delete update.tenantId }`. -/
def stripTenantIdUpdate (u : Update) : Update :=
  if jsTruthyVal u.set.tenantId ∨ jsTruthyVal u.topTenantId then
    { u with set := { u.set with tenantId := none }, topTenantId := none }
  else u

/-- `Model.findOneAndUpdate(filter, update, { new: true })`: update the
first matching document in the store, returning the updated document
(or `null`) and the new store. -/
def findOneAndUpdate (f : Filter) (u : Update) :
    List Doc → Option Doc × List Doc
  | [] => (none, [])
  | d :: rest =>
    if filterMatches f d then
      (some (applyUpdate u d), applyUpdate u d :: rest)
    else
      let (r, rest') := findOneAndUpdate f u rest
      (r, d :: rest')

/-- `TenantAwareRepository.updateOne`: inject the tenant filter
(soft-deleted rows excluded), strip a truthy `tenantId` from the
payload, then `findOneAndUpdate`. -/
def updateOne (store : List Doc) (filter : Filter) (u : Update)
    (ctx : String) : Except Unit (Option Doc × List Doc) := do
  let tenantFilter ← injectTenantFilter filter false ctx
  let u := stripTenantIdUpdate u
  pure (findOneAndUpdate tenantFilter u store)

/-- `TenantAwareRepository.updateById`: `updateOne({ _id: id }, update)`. -/
def updateById (store : List Doc) (id : String) (u : Update)
    (ctx : String) : Except Unit (Option Doc × List Doc) :=
  updateOne store { id := some id } u ctx

/-- `TenantAwareRepository.updateMany`: inject the tenant filter and run
`Model.updateMany` — note the source does NOT strip `tenantId` from the
update payload here. -/
def updateMany (store : List Doc) (filter : Filter) (u : Update)
    (ctx : String) : Except Unit ((Nat × Nat) × List Doc) := do
  let tenantFilter ← injectTenantFilter filter false ctx
  let matched := store.filter (filterMatches tenantFilter)
  let newStore := store.map
    (fun d => if filterMatches tenantFilter d then applyUpdate u d else d)
  pure ((matched.length,
         (matched.filter (fun d => applyUpdate u d ≠ d)).length),
        newStore)

/-- `TenantAwareRepository.findOne`: inject the tenant filter, then
return the first matching document (the executed data access). -/
def findOne (store : List Doc) (filter : Filter) (includeDeleted : Bool)
    (ctx : String) : Except Unit (Option Doc) := do
  let tenantFilter ← injectTenantFilter filter includeDeleted ctx
  pure (store.find? (filterMatches tenantFilter))

/-- `TenantAwareRepository.softDelete`: `updateById(id, { $set:
{ deletedAt: new Date(), ...(deletedBy && { deletedBy }) } })`. -/
def softDelete (store : List Doc) (id : String) (deletedBy : Option String)
    (now : Nat) (ctx : String) : Except Unit (Option Doc × List Doc) :=
  updateById store id
    { set := { deletedAt := some now, deletedBy := deletedBy } } ctx

end Gateway

namespace Resolver

/-- An opaque tenant record as the resolver hands it around. -/
structure Tenant where
  tid : Nat
deriving DecidableEq, Repr

/-- `ResolutionResult.resolvedVia`. -/
inductive ResolutionMethod where
  | jwt
  | header
  | subdomain
  | domain
deriving DecidableEq, Repr

/-- The four cache-assisted directory lookups the resolver delegates
to (`findTenantById`, `findTenantByIdOrApiKey`, `findTenantBySlug`,
`findTenantByDomain`), abstracted as functions from the lookup string
to the found active tenant. -/
structure ResolverEnv where
  findTenantById : List Char → Option Tenant
  findTenantByIdOrApiKey : List Char → Option Tenant
  findTenantBySlug : List Char → Option Tenant
  findTenantByDomain : List Char → Option Tenant

/-- The decoded JWT payload (`request.user`), with the two accepted
claim field names. -/
structure JwtUser where
  tenantId : Option (List Char) := none
  tenant_id : Option (List Char) := none

/-- The request signals the resolver reads: the decoded JWT, the
`x-tenant-id` header, and the `host` header. -/
structure Req where
  user : Option JwtUser := none
  xTenantIdHeader : Option (List Char) := none
  host : Option (List Char) := none

/-- JavaScript string truthiness: only the empty string is falsy. -/
def jsTruthy : Option (List Char) → Bool
  | none => false
  | some l => l ≠ []

/-- JavaScript `a || b` on two optional strings. -/
def jsOr (a b : Option (List Char)) : Option (List Char) :=
  if jsTruthy a then a else b

/-- JavaScript `String.prototype.split` with a one-character
separator.  Always returns a nonempty list of pieces. -/
def splitOnChar (c : Char) : List Char → List (List Char)
  | [] => [[]]
  | a :: rest =>
    match splitOnChar c rest with
    | [] => [[]]
    | r :: rs => if a = c then [] :: r :: rs else (a :: r) :: rs

/-- `TenantResolverService.resolveFromJwt`: read
`user.tenantId || user.tenant_id` and look the tenant up by id. -/
def resolveFromJwt (env : ResolverEnv) (req : Req) : Option Tenant :=
  match req.user with
  | none => none
  | some u =>
    match jsOr u.tenantId u.tenant_id with
    | none => none
    | some tid => if tid = [] then none else env.findTenantById tid

/-- `TenantResolverService.resolveFromHeader`: the `x-tenant-id`
header resolved through the id-or-apiKey-or-slug lookup. -/
def resolveFromHeader (env : ResolverEnv) (req : Req) : Option Tenant :=
  match req.xTenantIdHeader with
  | none => none
  | some tid => if tid = [] then none else env.findTenantByIdOrApiKey tid

/-- The literal `www` label. -/
def wwwLabel : List Char := ['w', 'w', 'w']

/-- `TenantResolverService.resolveFromSubdomain`: strip the port
(`host.split(':')[0]`), require the hostname to end with the base
domain, slice off `"." + baseDomain`, drop every `www` label, take the
last remaining label and look it up as a slug. -/
def resolveFromSubdomain (env : ResolverEnv) (req : Req)
    (baseDomain : List Char) : Option Tenant :=
  match req.host with
  | none => none
  | some h =>
    let hostname := (splitOnChar ':' h).headI
    if baseDomain.isSuffixOf hostname then
      let subdomainPart := hostname.take (hostname.length - (baseDomain.length + 1))
      if subdomainPart = [] then none
      else
        match ((splitOnChar '.' subdomainPart).filter (· ≠ wwwLabel)).getLast? with
        | none => none
        | some subdomain =>
          if subdomain = [] then none else env.findTenantBySlug subdomain
    else none

/-- `TenantResolverService.resolveFromCustomDomain`: port-stripped
hostname matched against tenant domain lists. -/
def resolveFromCustomDomain (env : ResolverEnv) (req : Req) : Option Tenant :=
  match req.host with
  | none => none
  | some h => env.findTenantByDomain ((splitOnChar ':' h).headI)

/-- `TenantResolverService.resolve`: the four strategies in strict
priority order, stopping at the first that yields a tenant. -/
def resolve (env : ResolverEnv) (req : Req) (baseDomain : List Char) :
    Option (Tenant × ResolutionMethod) :=
  match resolveFromJwt env req with
  | some t => some (t, .jwt)
  | none =>
    match resolveFromHeader env req with
    | some t => some (t, .header)
    | none =>
      match resolveFromSubdomain env req baseDomain with
      | some t => some (t, .subdomain)
      | none =>
        match resolveFromCustomDomain env req with
        | some t => some (t, .domain)
        | none => none

end Resolver

namespace RateLimiter

/-- One member of the Redis sorted set behind a rate-limit key:
score = admission timestamp in ms, member = the unique member string
(abstracted as a `Nat`). -/
structure RLEntry where
  score : Int
  member : Nat
deriving DecidableEq, Repr

/-- The state of one rate-limit key: its sorted-set entries and the
`PEXPIRE` deadline last set on it. -/
structure RLState where
  entries : List RLEntry := []
  expiresAt : Option Int := none
deriving DecidableEq, Repr

/-- `ZREMRANGEBYSCORE key 0 windowStart`: drop entries whose score
lies in `[0, windowStart]`. -/
def pruneEntries (entries : List RLEntry) (windowStart : Int) : List RLEntry :=
  entries.filter (fun e => !(decide (0 ≤ e.score) && decide (e.score ≤ windowStart)))

/-- `ZADD key now member`: update the score if the member exists,
otherwise add a new entry. -/
def zadd (entries : List RLEntry) (now : Int) (member : Nat) : List RLEntry :=
  if entries.any (fun e => e.member == member) then
    entries.map (fun e => if e.member == member then { e with score := now } else e)
  else
    { score := now, member := member } :: entries

/-- `ZRANGE key 0 0 WITHSCORES`: the lowest score in the set. -/
def oldestScore (entries : List RLEntry) : Option Int :=
  (entries.map (·.score)).min?

/-- The script's `reset_at`: oldest surviving score plus the window,
falling back to `now + window` when the set is empty. -/
def luaResetAt (kept : List RLEntry) (now windowMs : Int) : Int :=
  match oldestScore kept with
  | none => now + windowMs
  | some s => s + windowMs

/-- The Lua script of `RateLimiterService.getLuaScript`, as one atomic
step on the key's state.  Returns the new state and the script's
`{allowed, count, reset_at}` reply. -/
def luaCheckAndConsume (st : RLState) (now windowStart : Int) (limit : Nat)
    (windowMs : Int) (member : Nat) : RLState × Nat × Nat × Int :=
  let kept := pruneEntries st.entries windowStart
  if kept.length < limit then
    (⟨zadd kept now member, some (now + 2 * windowMs)⟩, 1, kept.length + 1,
     luaResetAt kept now windowMs)
  else
    (⟨kept, st.expiresAt⟩, 0, kept.length, luaResetAt kept now windowMs)

/-- `RateLimitResult` as returned to callers. -/
structure RateLimitResult where
  allowed : Bool
  limit : Nat
  remaining : Nat
  resetAt : Int
  retryAfter : Option Int := none
deriving DecidableEq, Repr

/-- `Math.ceil(a / b)` on integer inputs with positive `b`. -/
def jsCeilDiv (a b : Int) : Int := -((-a).ediv b)

/-- `RateLimiterService.checkAndConsume`: run the Lua script when the
store is reachable; on a store error (`redisOk = false`, the `catch`
branch) fail open with `allowed = true`, `remaining = limit` and
`resetAt = ceil((now + windowMs) / 1000)`. -/
def checkAndConsume (redisOk : Bool) (st : RLState) (limit : Nat)
    (windowMs now : Int) (member : Nat) : RLState × RateLimitResult :=
  if redisOk then
    let (st', allowed, count, resetAt) :=
      luaCheckAndConsume st now (now - windowMs) limit windowMs member
    (st', { allowed := allowed = 1
            limit := limit
            remaining := limit - count
            resetAt := jsCeilDiv resetAt 1000
            retryAfter :=
              if allowed = 0 then some (jsCeilDiv (resetAt - now) 1000) else none })
  else
    (st, { allowed := true
           limit := limit
           remaining := limit
           resetAt := jsCeilDiv (now + windowMs) 1000
           retryAfter := none })

/-- One admission check in an execution trace: its `Date.now()` value
and its unique member. -/
structure Check where
  time : Int
  member : Nat
deriving DecidableEq, Repr

/-- Run a sequence of checks against one key, each as one atomic Lua
step (Redis executes the script serially), recording each check's
admission flag. -/
def runChecks (st : RLState) (limit : Nat) (windowMs : Int) :
    List Check → List (Check × Bool)
  | [] => []
  | c :: rest =>
    let r := luaCheckAndConsume st c.time (c.time - windowMs) limit windowMs c.member
    (c, r.2.1 = 1) :: runChecks r.1 limit windowMs rest

/-- Membership of an instant in the sliding interval `(x, x + w]`. -/
def inWin (x w t : Int) : Bool := decide (x < t) && decide (t ≤ x + w)

/-- How many flagged checks were admitted with a timestamp inside the
sliding interval `(x, x + w]`. -/
def admittedCountIn (x w : Int) (l : List (Check × Bool)) : Nat :=
  (l.filter (fun p => p.2 && inWin x w p.1.time)).length

/-- How many stored entries have their score inside `(x, x + w]`. -/
def inWindowCount (x w : Int) (entries : List RLEntry) : Nat :=
  (entries.filter (fun e => inWin x w e.score)).length

end RateLimiter

namespace Usage

/-- A TypeScript `number` as used by the tier table: a finite rational
or `Infinity`. -/
inductive JNum where
  | fin (q : ℚ)
  | inf
deriving DecidableEq, Repr

/-- `TenantTier` from `tier-config.ts`. -/
inductive TenantTier where
  | starter
  | professional
  | enterprise
deriving DecidableEq, Repr

/-- `TenantLimits` from `tier-config.ts`. -/
structure TenantLimits where
  maxUsers : JNum
  maxTransactionsPerMonth : JNum
  apiRateLimit : JNum
deriving DecidableEq, Repr

/-- `TIER_CONFIGS[tier].limits`. -/
def tierLimits : TenantTier → TenantLimits
  | .starter => ⟨.fin 10, .fin 1000, .fin 60⟩
  | .professional => ⟨.fin 100, .fin 50000, .fin 300⟩
  | .enterprise => ⟨.inf, .inf, .fin 1000⟩

/-- A tenant's optional per-field limit overrides (`customLimits`). -/
structure CustomLimits where
  maxUsers : Option JNum := none
  maxTransactionsPerMonth : Option JNum := none
  apiRateLimit : Option JNum := none
deriving DecidableEq, Repr

/-- `Tenant.getEffectiveLimits`: tier defaults overridden field-wise
by `customLimits` when present (`{...tierLimits, ...customLimits}`). -/
def getEffectiveLimits (tier : TenantTier) (custom : Option CustomLimits) :
    TenantLimits :=
  let t := tierLimits tier
  match custom with
  | none => t
  | some c =>
    { maxUsers := c.maxUsers.getD t.maxUsers
      maxTransactionsPerMonth := c.maxTransactionsPerMonth.getD t.maxTransactionsPerMonth
      apiRateLimit := c.apiRateLimit.getD t.apiRateLimit }

/-- The Redis usage hash for one (tenant, period) key, as read by
`hgetall`: each counter is absent or a stored decimal string
(`parseInt(x || '0', 10)` makes absence read as `0`). -/
structure UsageHash where
  api_calls : Option ℕ := none
  transactions : Option ℕ := none
  storage_bytes : Option ℕ := none
  bandwidth_bytes : Option ℕ := none
deriving DecidableEq, Repr

/-- The summary values `UsageTrackerService.getSummary` reports. -/
structure SummaryModel where
  apiCalls : ℕ
  transactions : ℕ
  storageBytes : ℕ
  bandwidthBytes : ℕ
  maxTransactionsPerMonth : JNum
  transactionPercentUsed : ℚ
deriving DecidableEq, Repr

/-- `Math.round(q * 100) / 100` — JavaScript `Math.round` rounds half
toward positive infinity, exactly Mathlib's `round`. -/
def jsRound2 (q : ℚ) : ℚ := (round (q * 100) : ℤ) / 100

/-- `UsageTrackerService.getSummary`'s computation on the fetched
hash: parse the counters, divide transactions by the effective
monthly cap (0 when the cap is `Infinity`), and round the percentage
to two decimals. -/
def getSummaryModel (tier : TenantTier) (custom : Option CustomLimits)
    (usage : UsageHash) : SummaryModel :=
  let limits := getEffectiveLimits tier custom
  let transactions := usage.transactions.getD 0
  let pct : ℚ :=
    match limits.maxTransactionsPerMonth with
    | .inf => 0
    | .fin c => ((transactions : ℚ) / c) * 100
  { apiCalls := usage.api_calls.getD 0
    transactions := transactions
    storageBytes := usage.storage_bytes.getD 0
    bandwidthBytes := usage.bandwidth_bytes.getD 0
    maxTransactionsPerMonth := limits.maxTransactionsPerMonth
    transactionPercentUsed := jsRound2 pct }

end Usage

namespace JsDate

/-!
Modelled from the spec of the JavaScript runtime: ECMAScript `Date`
uses the proleptic Gregorian calendar; `getUTC*` read calendar fields
of the instant in UTC, while the `new Date(year, monthIndex, day)`
constructor interprets its arguments in the host's local time zone.
Instants are minutes since the Unix epoch; a zone is its offset east
of UTC in minutes (`local wall clock = UTC + offset`).
-/

/-- Days since 1970-01-01 of a proleptic-Gregorian civil date
(year, month 1–12, day); Howard Hinnant's `days_from_civil`. -/
def daysFromCivil (y m d : Int) : Int :=
  let y' := if m ≤ 2 then y - 1 else y
  let era := y'.ediv 400
  let yoe := y' - era * 400
  let mp := (m + 9).emod 12
  let doy := (153 * mp + 2).ediv 5 + d - 1
  let doe := yoe * 365 + yoe.ediv 4 - yoe.ediv 100 + doy
  era * 146097 + doe - 719468

/-- Civil date (year, month 1–12, day) of a days-since-epoch count;
Howard Hinnant's `civil_from_days`. -/
def civilFromDays (z0 : Int) : Int × Int × Int :=
  let z := z0 + 719468
  let era := z.ediv 146097
  let doe := z - era * 146097
  let yoe := (doe - doe.ediv 1460 + doe.ediv 36524 - doe.ediv 146096).ediv 365
  let y := yoe + era * 400
  let doy := doe - (365 * yoe + yoe.ediv 4 - yoe.ediv 100)
  let mp := (5 * doy + 2).ediv 153
  let d := doy - (153 * mp + 2).ediv 5 + 1
  let m := mp + (if mp < 10 then 3 else -9)
  (if m ≤ 2 then y + 1 else y, m, d)

/-- `(getUTCFullYear(), getUTCMonth() + 1)` of an instant given in
minutes since the Unix epoch. -/
def utcYearMonth (t : Int) : Int × Int :=
  let (y, m, _) := civilFromDays (t.ediv 1440)
  (y, m)

/-- `UsageTrackerService.getCurrentPeriod`: the `YYYY-MM` stamp from
`getUTCFullYear`/`getUTCMonth` of `new Date()` — a pure function of
the instant, independent of the host time zone. -/
def getCurrentPeriod (t : Int) : Int × Int := utcYearMonth t

/-- `new Date(year, monthIndex, 1)`: normalize the month index, then
take local midnight of day 1 in the host zone (`tz` minutes east of
UTC); the result is the instant in minutes since the epoch. -/
def jsNewDateMonth1 (tz : Int) (year monthIndex : Int) : Int :=
  let y := year + monthIndex.ediv 12
  let m := monthIndex.emod 12 + 1
  daysFromCivil y m 1 * 1440 - tz

/-- The `YYYY-MM` stamp `UsageTrackerService.getHistory` computes for
the `i`-th month back: `date = new Date(now.getUTCFullYear(),
now.getUTCMonth() - i, 1)` (a local-time constructor) followed by
`date.getUTCFullYear()`/`date.getUTCMonth()` (UTC readers). -/
def getHistoryPeriod (t tz : Int) (i : Nat) : Int × Int :=
  let (y, m) := utcYearMonth t
  utcYearMonth (jsNewDateMonth1 tz y ((m - 1) - i))

end JsDate

namespace Gateway

/-- Helper: a filter whose `tenantId` has a truthy string form that
differs from the context tenant makes `injectTenantFilter` throw. -/
theorem injectTenantFilter_blocks {f : Filter} {ctx s : String} {v : JsVal}
    (hv : f.tenantId = some v) (hs : jsToString v = some s)
    (hne : s ≠ "") (hdiff : s ≠ ctx) (inc : Bool) :
    injectTenantFilter f inc ctx = Except.error () := by
  unfold injectTenantFilter
  rw [hv]
  simp only [hs]
  have htr : jsTruthyStr (some s) = true := by simp [jsTruthyStr, hne]
  rw [if_pos ⟨htr, by simpa using hdiff⟩]

/-- Helper: `findOneAndUpdate` on a store with no matching document
returns `null` and leaves the store unchanged. -/
theorem findOneAndUpdate_no_match {f : Filter} {u : Update} :
    ∀ store : List Doc, (∀ d ∈ store, filterMatches f d = false) →
      findOneAndUpdate f u store = (none, store) := by
  intro store h
  induction store with
  | nil => rfl
  | cons d rest ih =>
    unfold findOneAndUpdate
    rw [h d (List.mem_cons_self d rest)]
    simp only [Bool.false_eq_true, if_false]
    rw [ih (fun d' hd' => h d' (List.mem_cons_of_mem d hd'))]

/-- Helper: `injectTenantFilter` on a filter without a `tenantId` key. -/
theorem injectTenantFilter_eq_none {f : Filter} (h : f.tenantId = none)
    (inc : Bool) (ctx : String) :
    injectTenantFilter f inc ctx = Except.ok { f with
      tenantId := some (JsVal.vstr ctx)
      deletedAt := if inc then f.deletedAt else some JsVal.vnull } := by
  unfold injectTenantFilter
  rw [h]

/-- Helper: `injectTenantFilter` on a filter carrying a `tenantId` key. -/
theorem injectTenantFilter_eq_some {f : Filter} {v : JsVal}
    (h : f.tenantId = some v) (inc : Bool) (ctx : String) :
    injectTenantFilter f inc ctx =
      if jsTruthyStr (jsToString v) = true ∧ jsToString v ≠ some ctx then
        Except.error ()
      else Except.ok { f with
        tenantId := some (JsVal.vstr ctx)
        deletedAt := if inc then f.deletedAt else some JsVal.vnull } := by
  unfold injectTenantFilter
  rw [h]

/-- C10: `injectTenantFilter` rejects exactly the filters whose
`tenantId` key holds a truthy value whose string form differs from the
context tenant; every accepted filter has its `tenantId` overwritten
with the context tenant's identifier. -/
theorem injectTenantFilter_truthy_check (f : Filter) (ctx : String) (inc : Bool) :
    (∀ tf, injectTenantFilter f inc ctx = Except.ok tf →
      tf.tenantId = some (JsVal.vstr ctx)) ∧
    (injectTenantFilter f inc ctx = Except.error () ↔
      ∃ v, f.tenantId = some v ∧ jsTruthyStr (jsToString v) = true ∧
        jsToString v ≠ some ctx) := by
  cases hv : f.tenantId with
  | none =>
    rw [injectTenantFilter_eq_none hv inc ctx]
    refine ⟨fun tf htf => ?_, ?_⟩
    · cases htf; rfl
    · simp [hv]
  | some v =>
    rw [injectTenantFilter_eq_some hv inc ctx]
    by_cases hcond : jsTruthyStr (jsToString v) = true ∧ jsToString v ≠ some ctx
    · rw [if_pos hcond]
      refine ⟨fun tf htf => by simp at htf, ?_⟩
      simp [hv, hcond.1, hcond.2]
    · rw [if_neg hcond]
      refine ⟨fun tf htf => ?_, ?_⟩
      · cases htf; rfl
      · constructor
        · intro h
          simp at h
        · rintro ⟨v', hv', htr, hne⟩
          cases hv'
          exact absurd ⟨htr, hne⟩ hcond

/-- C10 witness: a filter whose `tenantId` is `null` is accepted and
the injected filter carries the context tenant. -/
theorem injectTenantFilter_truthy_check_witness :
    injectTenantFilter { tenantId := some JsVal.vnull } false "tenantA" =
      Except.ok { tenantId := some (JsVal.vstr "tenantA"),
                  deletedAt := some JsVal.vnull } ∧
    Filter.tenantId { tenantId := some (JsVal.vstr "tenantA"),
                      deletedAt := some JsVal.vnull }
      = some (JsVal.vstr "tenantA") :=
  ⟨rfl, (injectTenantFilter_truthy_check { tenantId := some JsVal.vnull }
    "tenantA" false).1 _ rfl⟩

/-- C2 counterexample: a filter that explicitly names `tenantId` with
the empty string — whose string form differs from the context tenant —
is NOT rejected: the operation succeeds and executes the query. -/
theorem emptyString_tenantId_filter_not_rejected :
    jsToString (JsVal.vstr "") = some "" ∧ ("" : String) ≠ "tenantA" ∧
    findOne [] { tenantId := some (JsVal.vstr "") } false "tenantA" =
      Except.ok none := ⟨rfl, by decide, rfl⟩

/-- C2 (amended): a caller filter naming `tenantId` with a truthy
value (non-empty string form) differing from the context tenant makes
every filter-taking operation fail with the Forbidden error before any
data access. -/
theorem crossTenant_truthy_filter_rejected (store : List Doc) (f : Filter)
    (u : Update) (inc : Bool) (ctx s : String) (v : JsVal)
    (hv : f.tenantId = some v) (hs : jsToString v = some s)
    (hne : s ≠ "") (hdiff : s ≠ ctx) :
    findOne store f inc ctx = Except.error () ∧
    updateOne store f u ctx = Except.error () ∧
    updateMany store f u ctx = Except.error () := by
  refine ⟨?_, ?_, ?_⟩ <;>
    simp [findOne, updateOne, updateMany,
      injectTenantFilter_blocks hv hs hne hdiff, Except.bind]

/-- C2 witness at a concrete cross-tenant filter. -/
theorem crossTenant_truthy_filter_rejected_witness :
    findOne [] { tenantId := some (JsVal.vstr "tenantB") } false "tenantA" =
      Except.error () ∧
    updateOne [] { tenantId := some (JsVal.vstr "tenantB") } {} "tenantA" =
      Except.error () ∧
    updateMany [] { tenantId := some (JsVal.vstr "tenantB") } {} "tenantA" =
      Except.error () :=
  crossTenant_truthy_filter_rejected [] _ {} false "tenantA" "tenantB" _
    rfl rfl (by decide) (by decide)

/-- C1: `updateMany` does NOT strip a `tenantId` from the update
payload — the stored owning-tenant identifier is overwritten with the
caller-supplied value — whereas `updateOne` on the same store and
payload strips it and leaves the document's `tenantId` unchanged. -/
theorem updateMany_overwrites_tenantId :
    updateMany [{ id := "p1", tenantId := "tenantA" }] {}
        { set := { tenantId := some (JsVal.vstr "tenantB") } } "tenantA"
      = Except.ok ((1, 1), [{ id := "p1", tenantId := "tenantB" }]) ∧
    updateOne [{ id := "p1", tenantId := "tenantA" }] {}
        { set := { tenantId := some (JsVal.vstr "tenantB") } } "tenantA"
      = Except.ok
          (some { id := "p1", tenantId := "tenantA" }, [{ id := "p1", tenantId := "tenantA" }]) ∧
    ("tenantB" : String) ≠ "tenantA" := ⟨rfl, rfl, by decide⟩

/-- C9: soft delete is first-wins idempotent — when every document
with the targeted id (in the context tenant) already carries a
deletion timestamp, `softDelete` completes without error, returns
`null`, and leaves the store (timestamps and deleting actor included)
unchanged. -/
theorem softDelete_first_wins (store : List Doc) (i : String)
    (delBy : Option String) (now : Nat) (ctx : String)
    (h : ∀ d ∈ store, d.id = i → d.tenantId = ctx → d.deletedAt ≠ none) :
    softDelete store i delBy now ctx = Except.ok (none, store) := by
  have hfm : ∀ d ∈ store,
      filterMatches ⟨some i, some (JsVal.vstr ctx), some JsVal.vnull⟩ d = false := by
    intro d hd
    simp only [filterMatches]
    by_cases h1 : d.id = i
    · by_cases h2 : d.tenantId = ctx
      · have h3 := h d hd h1 h2
        simp [h1, h2, h3]
      · simp [h2]
    · simp [h1]
  have key := @findOneAndUpdate_no_match
    ⟨some i, some (JsVal.vstr ctx), some JsVal.vnull⟩
    { set := { deletedAt := some now, deletedBy := delBy } } store hfm
  calc softDelete store i delBy now ctx
      = Except.ok (findOneAndUpdate
          ⟨some i, some (JsVal.vstr ctx), some JsVal.vnull⟩
          { set := { deletedAt := some now, deletedBy := delBy } } store) := rfl
    _ = Except.ok (none, store) := by rw [key]

/-- C9 witness: soft-deleting an already-deleted document (timestamp
5, deleted by an earlier actor) changes nothing and raises no error. -/
theorem softDelete_first_wins_witness :
    softDelete [{ id := "p1", tenantId := "tenantA", deletedAt := some 5, deletedBy := some "alice" }]
        "p1" (some "bob") 99 "tenantA"
      = Except.ok
          (none,
           [{ id := "p1", tenantId := "tenantA", deletedAt := some 5, deletedBy := some "alice" }]) :=
  softDelete_first_wins _ "p1" (some "bob") 99 "tenantA" (by decide)

end Gateway

namespace ResolverThm

open Resolver

/-- C4: tenant resolution tries the JWT claim first — whenever the
request carries a decoded claim set whose (truthy)
`tenantId || tenant_id` value resolves to a tenant, `resolve` returns
that tenant with method `jwt`, regardless of any header, subdomain or
custom-domain signal also present on the request. -/
theorem resolve_jwt_priority (env : ResolverEnv) (req : Req)
    (base : List Char) (u : JwtUser) (tid : List Char) (t : Tenant)
    (hu : req.user = some u) (htid : jsOr u.tenantId u.tenant_id = some tid)
    (hne : tid ≠ []) (hfound : env.findTenantById tid = some t) :
    resolve env req base = some (t, ResolutionMethod.jwt) := by
  have hjwt : resolveFromJwt env req = some t := by
    unfold resolveFromJwt
    rw [hu]
    simp only [htid, if_neg hne, hfound]
  unfold resolve
  rw [hjwt]

/-- C4 witness: a request with a valid claim for `tenant1` and a
conflicting `x-tenant-id` header that would resolve to a different
tenant still resolves to the claim's tenant via the claim method. -/
theorem resolve_jwt_priority_witness :
    resolve
      ⟨fun s => if s = "tenant1".toList then some ⟨1⟩ else none,
       fun _ => some ⟨2⟩, fun _ => some ⟨3⟩, fun _ => some ⟨4⟩⟩
      { user := some { tenantId := some "tenant1".toList },
        xTenantIdHeader := some "tenant2".toList }
      "financeops.com".toList
      = some (⟨1⟩, ResolutionMethod.jwt) :=
  resolve_jwt_priority _ _ _ { tenantId := some "tenant1".toList }
    "tenant1".toList ⟨1⟩ rfl (by decide) (by decide) (by decide)

end ResolverThm

namespace RateLimiterThm

open RateLimiter

/-- C5: when the backing store is unreachable (`redisOk = false`, the
`catch` branch of `checkAndConsume`), the limiter fails open — the
result is `allowed = true`, `remaining = limit`,
`resetAt = ceil((now + window)/1000)`, no retry hint — the state is
untouched and no error surfaces to the caller. -/
theorem checkAndConsume_fails_open (st : RLState) (limit : Nat)
    (windowMs now : Int) (member : Nat) :
    checkAndConsume false st limit windowMs now member =
      (st, { allowed := true, limit := limit, remaining := limit,
             resetAt := jsCeilDiv (now + windowMs) 1000,
             retryAfter := none }) := rfl

end RateLimiterThm

namespace UsageThm

open Usage

/-- C7: the usage summary reports the parsed transaction counter and
percent-used as `(transactions / cap) * 100` rounded to two decimals;
an unbounded (`Infinity`) effective cap reports exactly zero percent;
in particular 892 transactions on the PROFESSIONAL tier (cap 50000)
report `transactions = 892` and `transactionPercentUsed = 1.78`. -/
theorem getSummary_percent_used :
    (getSummaryModel .professional none
        { api_calls := some 15234, transactions := some 892 }).transactions
      = 892 ∧
    (getSummaryModel .professional none
        { api_calls := some 15234, transactions := some 892 }).transactionPercentUsed
      = 178 / 100 ∧
    (∀ tier custom usage c,
      (getEffectiveLimits tier custom).maxTransactionsPerMonth = JNum.fin c →
      (getSummaryModel tier custom usage).transactionPercentUsed =
        jsRound2 (((usage.transactions.getD 0 : ℕ) : ℚ) / c * 100)) ∧
    (∀ tier custom usage,
      (getEffectiveLimits tier custom).maxTransactionsPerMonth = JNum.inf →
      (getSummaryModel tier custom usage).transactionPercentUsed = 0) := by
  refine ⟨rfl, ?_, ?_, ?_⟩
  · simp only [getSummaryModel, getEffectiveLimits, tierLimits, jsRound2, Option.getD]
    norm_num [round_eq]
  · intro tier custom usage c hc
    simp [getSummaryModel, hc]
  · intro tier custom usage hc
    simp [getSummaryModel, hc, jsRound2]

/-- C7 witness: the finite-cap formula applied on the STARTER tier
(cap 1000) with 5 recorded transactions. -/
theorem getSummary_percent_used_witness :
    (getSummaryModel .starter none { transactions := some 5 }).transactionPercentUsed
      = jsRound2 ((((Option.some 5 : Option ℕ).getD 0 : ℕ) : ℚ) / 1000 * 100) :=
  getSummary_percent_used.2.2.1 .starter none { transactions := some 5 } 1000 rfl

end UsageThm

namespace JsDateThm

open JsDate

/-- C8 (refuting theorem): `getHistory`'s period stamp is NOT computed
purely in UTC — it mixes the local-time `new Date(year, month, 1)`
constructor with UTC getters, so at the same instant
(2024-03-05T12:00Z) a host at UTC+02:00 (offset 120 minutes) stamps
the current month's history entry `2024-02` while `getCurrentPeriod`
(and a UTC host's `getHistory`) stamp `2024-03`. -/
theorem getHistory_period_zone_dependent :
    getCurrentPeriod (daysFromCivil 2024 3 5 * 1440 + 720) = (2024, 3) ∧
    getHistoryPeriod (daysFromCivil 2024 3 5 * 1440 + 720) 0 0 = (2024, 3) ∧
    getHistoryPeriod (daysFromCivil 2024 3 5 * 1440 + 720) 120 0 = (2024, 2) := by
  refine ⟨by decide, by decide, by decide⟩

end JsDateThm

namespace ResolverThm2

open Resolver

/-- Helper: `splitOnChar` never returns the empty list. -/
theorem splitOnChar_ne_nil (c : Char) (l : List Char) :
    splitOnChar c l ≠ [] := by
  cases l with
  | nil => simp [splitOnChar]
  | cons a rest =>
    unfold splitOnChar
    cases splitOnChar c rest with
    | nil => simp
    | cons r rs =>
      by_cases h : a = c <;> simp [h]

/-- Helper: splitting a string that does not contain the separator
yields the string itself as the only piece. -/
theorem splitOnChar_no_sep {c : Char} :
    ∀ {l : List Char}, c ∉ l → splitOnChar c l = [l] := by
  intro l h
  induction l with
  | nil => rfl
  | cons a rest ih =>
    have ha : ¬(a = c) := fun hac => h (hac ▸ List.mem_cons_self a rest)
    have hrest : c ∉ rest := fun hc => h (List.mem_cons_of_mem a hc)
    unfold splitOnChar
    rw [ih hrest]
    simp [ha]

/-- Helper: splitting at the first separator occurrence peels off the
separator-free prefix. -/
theorem splitOnChar_append {c : Char} :
    ∀ {A : List Char}, c ∉ A → ∀ B : List Char,
      splitOnChar c (A ++ c :: B) = A :: splitOnChar c B := by
  intro A hA B
  induction A with
  | nil =>
    cases hB : splitOnChar c B with
    | nil => exact absurd hB (splitOnChar_ne_nil c B)
    | cons r rs => simp [splitOnChar, hB]
  | cons a A ih =>
    have ha : ¬(a = c) := fun hac => hA (hac ▸ List.mem_cons_self a A)
    have hA' : c ∉ A := fun hc => hA (List.mem_cons_of_mem a hc)
    show splitOnChar c (a :: (A ++ c :: B)) = (a :: A) :: splitOnChar c B
    conv_lhs => unfold splitOnChar
    rw [ih hA']
    simp [ha]

/-- C6 counterexample: a host of the claimed form with slug `www`
(`www.www.financeops.com:3000`) resolves to nothing — the extractor
drops every `www` label, so the slug `www` is never looked up even
though the directory has a tenant under that slug. -/
theorem subdomain_www_slug_not_looked_up :
    resolveFromSubdomain
      ⟨fun _ => none, fun _ => none, fun _ => some ⟨7⟩, fun _ => none⟩
      { host := some "www.www.financeops.com:3000".toList }
      "financeops.com".toList = none ∧
    ResolverEnv.findTenantBySlug
      ⟨fun _ => none, fun _ => none, fun _ => some ⟨7⟩, fun _ => none⟩
      "www".toList = some ⟨7⟩ := ⟨rfl, rfl⟩

/-- C6 (amended): for every host `www.<slug>.<baseDomain>:<port>`
where the port is any string, the base domain is colon-free, and the
slug is a non-empty dot-free colon-free label other than the literal
`www`, subdomain resolution strips the port and the `www` label and
looks up exactly the slug. -/
theorem subdomain_extraction_amended (env : ResolverEnv)
    (slug base port : List Char)
    (hs1 : slug ≠ []) (hs2 : '.' ∉ slug) (hs3 : ':' ∉ slug)
    (hs4 : slug ≠ wwwLabel) (hb : ':' ∉ base) :
    resolveFromSubdomain env
      { host := some ((wwwLabel ++ '.' :: slug ++ '.' :: base) ++ ':' :: port) }
      base = env.findTenantBySlug slug := by
  have hA : ':' ∉ wwwLabel ++ '.' :: slug ++ '.' :: base := by
    intro hm
    rcases List.mem_append.mp hm with h | h
    · rcases List.mem_append.mp h with h | h
      · exact absurd h (by decide)
      · rcases List.mem_cons.mp h with h | h
        · exact absurd h (by decide)
        · exact hs3 h
    · rcases List.mem_cons.mp h with h | h
      · exact absurd h (by decide)
      · exact hb h
  have hsplit := splitOnChar_append hA port
  have hsuf : base.isSuffixOf (wwwLabel ++ '.' :: slug ++ '.' :: base) = true := by
    rw [show wwwLabel ++ '.' :: slug ++ '.' :: base
        = (wwwLabel ++ '.' :: slug ++ ['.']) ++ base by simp]
    simp [List.isSuffixOf]
  have hlen : (wwwLabel ++ '.' :: slug ++ '.' :: base).length - (base.length + 1)
      = (wwwLabel ++ '.' :: slug).length := by
    simp [List.length_append]
    omega
  have hdw : ('.' : Char) ∉ wwwLabel := by decide
  have hsplit2 : splitOnChar '.' (wwwLabel ++ '.' :: slug) = [wwwLabel, slug] := by
    rw [splitOnChar_append hdw slug, splitOnChar_no_sep hs2]
  have hfil : List.filter (fun x => decide (x ≠ wwwLabel)) [wwwLabel, slug]
      = [slug] := by
    simp [hs4]
  unfold resolveFromSubdomain
  simp only [hsplit, List.headI, hsuf, if_true, hlen, List.take_left, hsplit2]
  simp [hfil, hs1]
  rw [if_neg hs4]
  simp [hs1]

/-- C6 witness: slug `bank1` behind `www.` and a port is extracted and
looked up exactly. -/
theorem subdomain_extraction_amended_witness :
    resolveFromSubdomain
      ⟨fun _ => none, fun _ => none,
       fun s => if s = "bank1".toList then some ⟨5⟩ else none, fun _ => none⟩
      { host := some ((wwwLabel ++ '.' :: "bank1".toList ++ '.' :: "financeops.com".toList)
          ++ ':' :: "3000".toList) }
      "financeops.com".toList = some ⟨5⟩ :=
  (subdomain_extraction_amended _ "bank1".toList "financeops.com".toList "3000".toList
    (by decide) (by decide) (by decide) (by decide) (by decide)).trans rfl

end ResolverThm2

namespace RateLimiterThm2

open RateLimiter

/-- Helper: pruning keeps only entries of the original set. -/
theorem pruneEntries_subset {l : List RLEntry} {ws : Int} :
    ∀ e ∈ pruneEntries l ws, e ∈ l :=
  fun e he => (List.mem_filter.mp he).1

/-- Helper: pruning does not increase the entry count. -/
theorem pruneEntries_length_le (l : List RLEntry) (ws : Int) :
    (pruneEntries l ws).length ≤ l.length :=
  List.length_filter_le _ _

/-- Helper: the in-window entry count is at most the entry count. -/
theorem inWindowCount_le_length (x w : Int) (l : List RLEntry) :
    inWindowCount x w l ≤ l.length :=
  List.length_filter_le _ _

/-- Helper: `ZADD` with a member absent from the set inserts a new
entry. -/
theorem zadd_fresh {l : List RLEntry} {m : Nat}
    (h : ∀ e ∈ l, e.member ≠ m) (now : Int) :
    zadd l now m = ⟨now, m⟩ :: l := by
  unfold zadd
  rw [if_neg]
  intro hany
  obtain ⟨e, he, heq⟩ := List.any_eq_true.mp hany
  exact h e he (by simpa using heq)

/-- Helper: when the step's window start is at or below `x`, pruning
removes no entry of the window `(x, x + w]`. -/
theorem inWindowCount_prune {ws x : Int} (w : Int) (hws : ws ≤ x)
    (l : List RLEntry) :
    inWindowCount x w (pruneEntries l ws) = inWindowCount x w l := by
  unfold inWindowCount pruneEntries
  rw [List.filter_filter]
  apply congrArg List.length
  apply List.filter_congr
  intro e _
  by_cases h1 : x < e.score
  · by_cases h2 : e.score ≤ x + w
    · have h3 : ¬(e.score ≤ ws) := by omega
      simp [inWin, h1, h2, h3]
    · simp [inWin, h2]
  · simp [inWin, h1]

/-- Helper: the Lua step when the count is under the limit. -/
theorem lua_step_allows {st : RLState} {ws : Int} {limit : Nat}
    (h : (pruneEntries st.entries ws).length < limit) (now w : Int) (m : Nat) :
    luaCheckAndConsume st now ws limit w m =
      (⟨zadd (pruneEntries st.entries ws) now m, some (now + 2 * w)⟩, 1,
       (pruneEntries st.entries ws).length + 1,
       luaResetAt (pruneEntries st.entries ws) now w) := by
  unfold luaCheckAndConsume
  rw [if_pos h]

/-- Helper: the Lua step when the count has reached the limit. -/
theorem lua_reject {st : RLState} {ws : Int} {limit : Nat}
    (h : ¬(pruneEntries st.entries ws).length < limit) (now w : Int) (m : Nat) :
    luaCheckAndConsume st now ws limit w m =
      (⟨pruneEntries st.entries ws, st.expiresAt⟩, 0,
       (pruneEntries st.entries ws).length,
       luaResetAt (pruneEntries st.entries ws) now w) := by
  unfold luaCheckAndConsume
  rw [if_neg h]

/-- Helper: unfolding `runChecks` on an admitted head check. -/
theorem runChecks_cons_allowed {st : RLState} {limit : Nat} {w : Int} {c : Check}
    (h : (pruneEntries st.entries (c.time - w)).length < limit)
    (rest : List Check) :
    runChecks st limit w (c :: rest) =
      (c, true) :: runChecks
        ⟨zadd (pruneEntries st.entries (c.time - w)) c.time c.member,
         some (c.time + 2 * w)⟩ limit w rest := by
  conv_lhs => unfold runChecks
  rw [lua_step_allows h]
  simp

/-- Helper: unfolding `runChecks` on a rejected head check. -/
theorem runChecks_cons_reject {st : RLState} {limit : Nat} {w : Int} {c : Check}
    (h : ¬(pruneEntries st.entries (c.time - w)).length < limit)
    (rest : List Check) :
    runChecks st limit w (c :: rest) =
      (c, false) :: runChecks
        ⟨pruneEntries st.entries (c.time - w), st.expiresAt⟩ limit w rest := by
  conv_lhs => unfold runChecks
  rw [lua_reject h]
  simp

/-- Helper: the admitted count over a cons cell. -/
theorem admittedCountIn_cons (x w : Int) (c : Check) (b : Bool)
    (l : List (Check × Bool)) :
    admittedCountIn x w ((c, b) :: l) =
      (if (b && inWin x w c.time) = true then 1 else 0) + admittedCountIn x w l := by
  unfold admittedCountIn
  rw [List.filter_cons]
  by_cases h : (b && inWin x w c.time) = true
  · simp [h, Nat.add_comm]
  · simp [h]

/-- Helper: the in-window count over a cons cell. -/
theorem inWindowCount_cons (x w : Int) (e : RLEntry) (l : List RLEntry) :
    inWindowCount x w (e :: l) =
      (if inWin x w e.score = true then 1 else 0) + inWindowCount x w l := by
  unfold inWindowCount
  rw [List.filter_cons]
  by_cases h : inWin x w e.score = true
  · simp [h, Nat.add_comm]
  · simp [h]

/-- Helper: a trace whose checks all fall outside the window admits
nothing inside it. -/
theorem admittedCountIn_zero (x w : Int) (limit : Nat) :
    ∀ (cs : List Check) (st : RLState),
      (∀ c ∈ cs, inWin x w c.time = false) →
      admittedCountIn x w (runChecks st limit w cs) = 0 := by
  intro cs
  induction cs with
  | nil => intro st _; rfl
  | cons c rest ih =>
    intro st h
    by_cases hlt : (pruneEntries st.entries (c.time - w)).length < limit
    · rw [runChecks_cons_allowed hlt, admittedCountIn_cons,
        h c (List.mem_cons_self c rest)]
      simp [ih _ (fun c' hc' => h c' (List.mem_cons_of_mem c hc'))]
    · rw [runChecks_cons_reject hlt, admittedCountIn_cons,
        h c (List.mem_cons_self c rest)]
      simp [ih _ (fun c' hc' => h c' (List.mem_cons_of_mem c hc'))]

/-- Helper: in a `Chain' (≤)` the head bounds every later element. -/
theorem chain_head_le :
    ∀ {l : List Int} {t : Int}, List.Chain' (· ≤ ·) (t :: l) →
      ∀ t' ∈ l, t ≤ t' := by
  intro l
  induction l with
  | nil => intro t _ t' h'; cases h'
  | cons b l ih =>
    intro t hch t' ht'
    rw [List.chain'_cons] at hch
    rcases List.mem_cons.mp ht' with rfl | hmem
    · exact hch.1
    · exact le_trans hch.1 (ih hch.2 t' hmem)

/-- Main invariant for C3: processing a trace of nondecreasing-time,
distinct-member checks from a state with at most `limit` entries keeps
the total of in-window admissions and surviving in-window entries at
or below the limit, for every sliding interval `(x, x + w]`. -/
theorem rl_bound_aux (limit : Nat) (w : Int) :
    ∀ (cs : List Check) (st : RLState),
      List.Chain' (· ≤ ·) (cs.map Check.time) →
      st.entries.length ≤ limit →
      (∀ e ∈ st.entries, ∀ c ∈ cs, e.member ≠ c.member) →
      (cs.map Check.member).Nodup →
      ∀ x, admittedCountIn x w (runChecks st limit w cs) +
        inWindowCount x w st.entries ≤ limit := by
  intro cs
  induction cs with
  | nil =>
    intro st _ hsize _ _ x
    simpa [runChecks, admittedCountIn] using
      le_trans (inWindowCount_le_length x w st.entries) hsize
  | cons c rest ih =>
    intro st hmono hsize hfresh hnodup x
    have hrest_t : ∀ c' ∈ rest, c.time ≤ c'.time := by
      intro c' hc'
      exact chain_head_le hmono _ (List.mem_map_of_mem Check.time hc')
    have hmono' : List.Chain' (· ≤ ·) (rest.map Check.time) := by
      have := hmono.tail
      simpa using this
    obtain ⟨hm_head, hnodup'⟩ := List.nodup_cons.mp hnodup
    by_cases hcase : c.time ≤ x + w
    · -- the head check falls at or before the window's right edge:
      -- pruning cannot evict in-window entries
      have hws : c.time - w ≤ x := by omega
      have hpr_eq := inWindowCount_prune w (show c.time - w ≤ x from hws) st.entries
      have hkeeplen : (pruneEntries st.entries (c.time - w)).length ≤ limit :=
        le_trans (pruneEntries_length_le _ _) hsize
      by_cases hlt : (pruneEntries st.entries (c.time - w)).length < limit
      · -- admitted
        have hfreshk : ∀ e ∈ pruneEntries st.entries (c.time - w),
            e.member ≠ c.member :=
          fun e he => hfresh e (pruneEntries_subset e he) c (List.mem_cons_self c rest)
        rw [runChecks_cons_allowed hlt, zadd_fresh hfreshk]
        have hih := ih ⟨⟨c.time, c.member⟩ :: pruneEntries st.entries (c.time - w),
            some (c.time + 2 * w)⟩ hmono'
          (by simpa using hlt)
          (by
            intro e he c' hc'
            rcases List.mem_cons.mp he with rfl | hmem
            · intro hm
              have hm' : c.member = c'.member := hm
              exact hm_head (hm' ▸ List.mem_map_of_mem Check.member hc')
            · exact hfresh e (pruneEntries_subset e hmem) c' (List.mem_cons_of_mem c hc'))
          hnodup' x
        rw [inWindowCount_cons] at hih
        rw [show ({ score := c.time, member := c.member } : RLEntry).score = c.time
          from rfl] at hih
        rw [admittedCountIn_cons, Bool.true_and, ← hpr_eq]
        omega
      · -- rejected
        rw [runChecks_cons_reject hlt, admittedCountIn_cons]
        have hih := ih ⟨pruneEntries st.entries (c.time - w), st.expiresAt⟩ hmono'
          hkeeplen
          (fun e he c' hc' =>
            hfresh e (pruneEntries_subset e he) c' (List.mem_cons_of_mem c hc'))
          hnodup' x
        rw [show RLState.entries ⟨pruneEntries st.entries (c.time - w), st.expiresAt⟩ = pruneEntries st.entries (c.time - w) from rfl] at hih
        rw [← hpr_eq]
        simp only [Bool.false_and,
          show (if (false = true) then (1 : Nat) else 0) = 0 from rfl]
        omega
    · -- the whole remaining trace lies beyond the window's right edge
      have hz : admittedCountIn x w (runChecks st limit w (c :: rest)) = 0 := by
        apply admittedCountIn_zero
        intro c' hc'
        rcases List.mem_cons.mp hc' with rfl | hmem
        · simp only [inWin]
          have : ¬(c'.time ≤ x + w) := hcase
          simp [this]
        · have h1 : c.time ≤ c'.time := hrest_t c' hmem
          have h2 : ¬(c'.time ≤ x + w) := by omega
          simp [inWin, h2]
      rw [hz]
      simpa using le_trans (inWindowCount_le_length x w st.entries) hsize

/-- C3: each check runs as one atomic Lua step, and for any trace of
checks with nondecreasing timestamps and pairwise-distinct members
against an initially empty key, at most `limit` checks are admitted
inside any sliding interval `(x, x + w]`; moreover an admitted step
adds exactly the one entry `(now, member)` on top of the pruned set,
and a rejected step adds no entry. -/
theorem rate_limiter_sliding_window_atomic (limit : Nat) (w : Int)
    (cs : List Check)
    (hmono : List.Chain' (· ≤ ·) (cs.map Check.time))
    (hnodup : (cs.map Check.member).Nodup) :
    (∀ x, admittedCountIn x w (runChecks {} limit w cs) ≤ limit) ∧
    (∀ (st : RLState) (now ws : Int) (m : Nat),
      ((luaCheckAndConsume st now ws limit w m).2.1 = 1 →
        (∀ e ∈ pruneEntries st.entries ws, e.member ≠ m) →
        (luaCheckAndConsume st now ws limit w m).1.entries
          = ⟨now, m⟩ :: pruneEntries st.entries ws) ∧
      ((luaCheckAndConsume st now ws limit w m).2.1 = 0 →
        (luaCheckAndConsume st now ws limit w m).1.entries
          = pruneEntries st.entries ws)) := by
  constructor
  · intro x
    have := rl_bound_aux limit w cs {} hmono (by simp) (by simp) hnodup x
    have h0 : inWindowCount x w (RLState.entries {}) = 0 := rfl
    omega
  · intro st now ws m
    by_cases hlt : (pruneEntries st.entries ws).length < limit
    · rw [lua_step_allows hlt]
      refine ⟨fun _ hfresh => ?_, fun h0 => by cases h0⟩
      exact zadd_fresh hfresh now
    · rw [lua_reject hlt]
      exact ⟨fun h1 => absurd (show (0 : Nat) = 1 from h1) (by decide), fun _ => rfl⟩

/-- C3 witness: a concrete trace (limit 2, window 10, times
0,1,2,11,12) admits at most 2 checks in the window starting just
before time 0. -/
theorem rate_limiter_sliding_window_atomic_witness :
    admittedCountIn (-1) 10
      (runChecks {} 2 10 [⟨0, 1⟩, ⟨1, 2⟩, ⟨2, 3⟩, ⟨11, 4⟩, ⟨12, 5⟩]) ≤ 2 :=
  (rate_limiter_sliding_window_atomic 2 10 [⟨0, 1⟩, ⟨1, 2⟩, ⟨2, 3⟩, ⟨11, 4⟩, ⟨12, 5⟩]
    (by simp [List.chain'_cons]) (by simp)).1 (-1)

end RateLimiterThm2

